import Mathlib

/-!
Verification of the Trello-clone backend (Next.js API routes over a
relational store).  The definitions below are a shallow embedding of the
TypeScript sources: the database is a record of rows, each API route is a
pure function from the store and the request data to a response together
with the successor store, and the library helpers of `lib/database.ts`
(`verifyBoardOwnership`, `verifyListAccess`, `deleteList`, position
queries, ...) are translated one to one.  Float-valued `position` columns
are modelled by rationals; row order inside a table models the order in
which the store returns rows when no ORDER BY clause is issued.
-/

namespace Trello

/-- A user row: `id, email, password (stored digest), name`. -/
structure User where
  id : String
  email : String
  password : String
  name : String
deriving Repr, DecidableEq

/-- A board row: `id, name, owner_id, created_at`. -/
structure Board where
  id : String
  name : String
  ownerId : String
  createdAt : Nat
deriving Repr, DecidableEq

/-- A list row: `id, name, board_id, position`. -/
structure BoardList where
  id : String
  name : String
  boardId : String
  position : ℚ
deriving Repr, DecidableEq

/-- A card row: `id, title, description, list_id, position`. -/
structure Card where
  id : String
  title : String
  description : Option String
  listId : String
  position : ℚ
deriving Repr, DecidableEq

/-- The relational store: one table per entity. -/
structure DB where
  users : List User
  boards : List Board
  lists : List BoardList
  cards : List Card
deriving Repr, DecidableEq

/-- `prisma.user.findUnique(where: email)` / supabase `getUserByEmail`. -/
def getUserByEmail (db : DB) (email : String) : Option User :=
  db.users.find? (fun u => u.email == email)

/-- `lib/database.ts verifyBoardOwnership(boardId, userId)`: a single-row
lookup in the `boards` table matching both the id and the owner. -/
def verifyBoardOwnership (db : DB) (boardId userId : String) : Bool :=
  db.boards.any (fun b => b.id == boardId && b.ownerId == userId)

/-- `lib/database.ts verifyListAccess(listId, userId)`: a lookup in the
`lists` table joined with `boards` on the owner column. -/
def verifyListAccess (db : DB) (listId userId : String) : Bool :=
  db.lists.any (fun l => l.id == listId &&
    db.boards.any (fun b => b.id == l.boardId && b.ownerId == userId))

/-- A transport response: 200 with a payload, or a status code with an
error body. -/
inductive ApiResponse (α : Type) where
  | ok : α → ApiResponse α
  | err : Nat → String → ApiResponse α
deriving Repr, DecidableEq

/-- `lib/database.ts updateCard(id, title, description)`: updates the
matching row and returns it (`.single()` fails when no row matches). -/
def updateCard (db : DB) (cardId : String) (title : String)
    (descr : Option String) : Option (Card × DB) :=
  match db.cards.find? (fun c => c.id == cardId) with
  | none => none
  | some c =>
      let upd : Card → Card := fun cc =>
        if cc.id == cardId then
          { cc with title := title,
                    description := descr.elim cc.description some }
        else cc
      some (upd c, { db with cards := db.cards.map upd })

/-- `lib/database.ts deleteCard(id)`: removes the matching card rows. -/
def deleteCard (db : DB) (cardId : String) : DB :=
  { db with cards := db.cards.filter (fun c => c.id != cardId) }

/-- `lib/database.ts updateList(id, name)`: updates the matching list row
and returns it together with its cards. -/
def updateList (db : DB) (listId : String) (name : String) :
    Option (BoardList × DB) :=
  match db.lists.find? (fun l => l.id == listId) with
  | none => none
  | some l =>
      let upd : BoardList → BoardList := fun ll =>
        if ll.id == listId then { ll with name := name } else ll
      some (upd l, { db with lists := db.lists.map upd })

/-- `lib/database.ts deleteList(id)`: first deletes every card whose
`list_id` is the given id, then deletes the list row itself. -/
def deleteList (db : DB) (listId : String) : DB :=
  { db with
    cards := db.cards.filter (fun c => c.listId != listId),
    lists := db.lists.filter (fun l => l.id != listId) }

/-- `PUT /api/cards/[id]` (route.ts): 401 without an actor, 400 without a
title, then the access check `verifyListAccess(id, userId)` where `id` is
the card id taken from the URL, then `updateCard`. -/
def putCard (db : DB) (auth : Option String) (cardId : String)
    (title : Option String) (descr : Option String) :
    ApiResponse Card × DB :=
  match auth with
  | none => (.err 401 "Unauthorized", db)
  | some userId =>
    match title with
    | none => (.err 400 "Card title is required", db)
    | some t =>
      if verifyListAccess db cardId userId then
        match updateCard db cardId t descr with
        | some (c, db2) => (.ok c, db2)
        | none => (.err 500 "Failed to update card", db)
      else (.err 404 "Card not found or access denied", db)

/-- `DELETE /api/cards/[id]` (route.ts): 401 without an actor, then the
access check `verifyListAccess(id, userId)` on the card id, then
`deleteCard`. -/
def deleteCardRoute (db : DB) (auth : Option String) (cardId : String) :
    ApiResponse Unit × DB :=
  match auth with
  | none => (.err 401 "Unauthorized", db)
  | some userId =>
    if verifyListAccess db cardId userId then
      (.ok (), deleteCard db cardId)
    else (.err 404 "Card not found or access denied", db)

/-- `PUT /api/lists/[id]` (route.ts): 401 without an actor, 400 without a
name, then the access check `verifyBoardOwnership(id, userId)` where `id`
is the list id taken from the URL, then `updateList`. -/
def putList (db : DB) (auth : Option String) (listId : String)
    (name : Option String) : ApiResponse BoardList × DB :=
  match auth with
  | none => (.err 401 "Unauthorized", db)
  | some userId =>
    match name with
    | none => (.err 400 "List name is required", db)
    | some n =>
      if verifyBoardOwnership db listId userId then
        match updateList db listId n with
        | some (l, db2) => (.ok l, db2)
        | none => (.err 500 "Failed to update list", db)
      else (.err 404 "List not found or access denied", db)

/-- `DELETE /api/lists/[id]` (route.ts): 401 without an actor, then the
access check `verifyBoardOwnership(id, userId)` on the list id, then
`deleteList`. -/
def deleteListRoute (db : DB) (auth : Option String) (listId : String) :
    ApiResponse Unit × DB :=
  match auth with
  | none => (.err 401 "Unauthorized", db)
  | some userId =>
    if verifyBoardOwnership db listId userId then
      (.ok (), deleteList db listId)
    else (.err 404 "List not found or access denied", db)

/-- A one-user, one-board, one-list, one-card store: user `u1` owns board
`b1`, which contains list `l1`, which contains card `c1`. -/
def db1 : DB :=
  { users := [{ id := "u1", email := "a@b.c", password := "H", name := "A" }],
    boards := [{ id := "b1", name := "Sprint 1", ownerId := "u1", createdAt := 0 }],
    lists := [{ id := "l1", name := "Todo", boardId := "b1", position := 0 }],
    cards := [{ id := "c1", title := "A", description := none,
                listId := "l1", position := 0 }] }

/-- The positions of the lists of one board, in store order: the sibling
set a `WHERE board_id = boardId` query ranges over. -/
def listPositions (db : DB) (boardId : String) : List ℚ :=
  (db.lists.filter (fun l => l.boardId == boardId)).map (fun l => l.position)

/-- The positions of the cards of one list, in store order. -/
def cardPositions (db : DB) (listId : String) : List ℚ :=
  (db.cards.filter (fun c => c.listId == listId)).map (fun c => c.position)

/-- `lib/database.ts getListPosition(boardId)`: the highest `position`
among the lists of the board (ORDER BY position DESC LIMIT 1), or `-1`
when the board has no list. -/
def getListPosition (db : DB) (boardId : String) : ℚ :=
  (listPositions db boardId).max?.getD (-1)

/-- `lib/database.ts getCardPosition(listId)`: the highest `position`
among the cards of the list, or `-1` when the list has no card. -/
def getCardPosition (db : DB) (listId : String) : ℚ :=
  (cardPositions db listId).max?.getD (-1)

/-- `POST /api/lists` (route.ts): 401 without an actor, 400 without name
or board id, the ownership check on the posted `boardId`, then the new
list is created with `position = getListPosition(boardId) + 1` (the
Prisma variant computes `lastList ? lastList.position + 1 : 0`, the same
value).  `newId` stands for the id generated by the store. -/
def postList (db : DB) (auth : Option String) (name boardId : Option String)
    (newId : String) : ApiResponse BoardList × DB :=
  match auth with
  | none => (.err 401 "Unauthorized", db)
  | some userId =>
    match name, boardId with
    | some n, some bid =>
      if verifyBoardOwnership db bid userId then
        let l : BoardList :=
          { id := newId, name := n, boardId := bid,
            position := getListPosition db bid + 1 }
        (.ok l, { db with lists := db.lists ++ [l] })
      else (.err 404 "Board not found or access denied", db)
    | _, _ => (.err 400 "List name and board ID are required", db)

/-- `POST /api/cards` (route.ts): 401 without an actor, 400 without title
or list id, the access check on the posted `listId` (a `lists` row joined
with its board on the owner), then the new card is created with
`position = (max existing card position) + 1`, or `0` when the list is
empty. -/
def postCard (db : DB) (auth : Option String) (title descr listId : Option String)
    (newId : String) : ApiResponse Card × DB :=
  match auth with
  | none => (.err 401 "Unauthorized", db)
  | some userId =>
    match title, listId with
    | some t, some lid =>
      if verifyListAccess db lid userId then
        let c : Card :=
          { id := newId, title := t, description := descr,
            listId := lid, position := getCardPosition db lid + 1 }
        (.ok c, { db with cards := db.cards ++ [c] })
      else (.err 404 "List not found or access denied", db)
    | _, _ => (.err 400 "Card title and list ID are required", db)

/-- A list row together with its cards, as returned by the
read-with-children query of `GET /api/boards`. -/
structure ListView where
  list : BoardList
  cards : List Card
deriving Repr, DecidableEq

/-- A board row together with its lists and their cards. -/
structure BoardView where
  board : Board
  lists : List ListView
deriving Repr, DecidableEq

/-- The children of one board, exactly as the include/join of
`GET /api/boards` fetches them: no ORDER BY is issued on the `lists` or
`cards` tables, so rows come back in store order. -/
def boardView (db : DB) (b : Board) : BoardView :=
  { board := b,
    lists := (db.lists.filter (fun l => l.boardId == b.id)).map (fun l =>
      { list := l, cards := db.cards.filter (fun c => c.listId == l.id) }) }

/-- The ORDER BY created_at DESC comparator of `GET /api/boards`. -/
def byCreatedDesc (b1 b2 : Board) : Bool := b2.createdAt ≤ b1.createdAt

/-- Sorted insertion under `byCreatedDesc`. -/
def insertDesc (b : Board) : List Board → List Board
  | [] => [b]
  | x :: xs => if byCreatedDesc b x then b :: x :: xs else x :: insertDesc b xs

/-- The ORDER BY created_at DESC clause, modelled as an insertion sort
under `byCreatedDesc`. -/
def sortByCreatedDesc : List Board → List Board
  | [] => []
  | x :: xs => insertDesc x (sortByCreatedDesc xs)

/-- `GET /api/boards` (route.ts): 401 without an actor, otherwise the
boards of the actor ordered by `created_at` descending, each with its
lists and cards (no child ordering). -/
def getBoards (db : DB) (auth : Option String) :
    ApiResponse (List BoardView) :=
  match auth with
  | none => .err 401 "Unauthorized"
  | some userId =>
    let mine := db.boards.filter (fun b => b.ownerId == userId)
    .ok ((sortByCreatedDesc mine).map (boardView db))

/-- A sequence of `POST /api/lists` appends under one board: each step
feeds the store produced by the previous one, `ids` supplying the
generated row ids. -/
def appendLists (db : DB) (uid nm bid : String) (ids : List String) : DB :=
  ids.foldl (fun d i => (postList d (some uid) (some nm) (some bid) i).2) db

/-- A two-user store: `u1` owns board `b1` with list `l1`; `u2` owns
nothing. -/
def db2 : DB :=
  { users := [{ id := "u1", email := "a@b.c", password := "H", name := "A" },
              { id := "u2", email := "d@e.f", password := "H2", name := "D" }],
    boards := [{ id := "b1", name := "Sprint 1", ownerId := "u1", createdAt := 0 }],
    lists := [{ id := "l1", name := "Todo", boardId := "b1", position := 0 }],
    cards := [] }

/-- The public-safe user projection returned by registration and login:
`id, email, name` only, no digest field exists in this type. -/
structure UserProjection where
  id : String
  email : String
  name : String
deriving Repr, DecidableEq

/-- `POST /api/auth/register` (route.ts): 400 on a missing field, 409
when `getUserByEmail` finds the email already stored, otherwise a new
user row holding `hash(password)` is created and the projection of the
new user is returned.  `hash` models the external bcrypt service and
`newId` the id generated by the store. -/
def registerUser (db : DB) (hash : String → String) (newId : String)
    (email password name : Option String) :
    ApiResponse UserProjection × DB :=
  match email, password, name with
  | some e, some p, some n =>
    match getUserByEmail db e with
    | some _ => (.err 409 "Email already in use", db)
    | none =>
      let u : User := { id := newId, email := e, password := hash p, name := n }
      (.ok { id := u.id, email := u.email, name := u.name },
       { db with users := db.users ++ [u] })
  | _, _, _ => (.err 400 "Missing fields", db)

/-- `POST /api/auth/login` (route.ts): 400 on a missing field, 401 with
`Invalid credentials` both when no user has the email and when the bcrypt
comparison rejects the password, otherwise a signed token for the user id
plus the projection.  `compare` models `bcrypt.compare` and `sign` models
`jwt.sign` on the `userId` claim. -/
def login (db : DB) (compare : String → String → Bool)
    (sign : String → String) (email password : Option String) :
    ApiResponse (String × UserProjection) :=
  match email, password with
  | some e, some p =>
    match getUserByEmail db e with
    | none => .err 401 "Invalid credentials"
    | some u =>
      if compare p u.password then
        .ok (sign u.id, { id := u.id, email := u.email, name := u.name })
      else .err 401 "Invalid credentials"
  | _, _ => .err 400 "Missing fields"

/-- JavaScript `s.replace(pat, rep)` with a string pattern: only the
first occurrence of `pat` is replaced (here over character lists; `pat`
is nonempty at every call site). -/
def replaceOnce (pat rep : List Char) : List Char → List Char
  | [] => []
  | c :: cs =>
    if pat.isPrefixOf (c :: cs) then rep ++ (c :: cs).drop pat.length
    else c :: replaceOnce pat rep cs

/-- Whether `pat` occurs as a contiguous run inside `s`. -/
def containsSeq (pat : List Char) : List Char → Bool
  | [] => pat.isEmpty
  | c :: cs => pat.isPrefixOf (c :: cs) || containsSeq pat cs

/-- `getUserIdFromToken(req)` as written at the top of every protected
route: `null` without an `Authorization` header, otherwise
`jwt.verify(authHeader.replace(Bearer-space, empty), secret)`, whose
`userId` claim is returned on success.  `verify` models `jwt.verify`
under the fixed server secret. -/
def getUserIdFromToken (verify : String → Option String)
    (authHeader : Option String) : Option String :=
  match authHeader with
  | none => none
  | some h => verify (String.mk (replaceOnce "Bearer ".data [] h.data))

/-- The midpoint of two neighbor positions. -/
def midpointQ (a b : ℚ) : ℚ := (a + b) / 2

/-- The integer-spaced positions `0, 1, ..., n - 1` as rationals. -/
def rangeQ (n : Nat) : List ℚ :=
  (List.range n).map (fun i : Nat => (i : ℚ))

/-- Fresh integer-spaced positions `0, 1, 2, ...` for a sibling set of
the same size. -/
def renumber (ps : List ℚ) : List ℚ :=
  rangeQ ps.length

/-- The position computed for target slot `i` of the sibling positions
`ps` (sorted ascending): the midpoint of the two flanking neighbors, or
`neighbor - 1` / `neighbor + 1` at either end, or `0` when the parent has
no other child. -/
def slotPos (ps : List ℚ) (i : Nat) : ℚ :=
  match (ps.take i).getLast?, (ps.drop i).head? with
  | none, none => 0
  | none, some r => r - 1
  | some l, none => l + 1
  | some l, some r => midpointQ l r

/-- Result of placing the moved child at slot `i`: the new sibling
position list. -/
def placeAt (ps : List ℚ) (i : Nat) (p : ℚ) : List ℚ :=
  ps.take i ++ p :: ps.drop i

/-- Modelled from the spec: the server-side Reorder-within-parent
operation of the Ordering Engine (spec section 4.2) is absent from the
sources — the client drag handler `handleDragEnd` in
`board/[id]/page.tsx` mutates only component state and leaves persistence
as a `TODO: Update card position in database`, which the spec design
notes call an incomplete variant of the server-side-complete path.
Following the spec words: `ps` is the sibling set the moved child is
placed into (positions read back sorted ascending, the moved child
already taken out), `i` the requested target index; the new position is
the midpoint of the two flanking neighbors (`neighbor position ± 1`
beyond either boundary); when the midpoint is numerically
indistinguishable from a neighbor (`indist`, modelling float exhaustion)
the whole sibling set is first renumbered `0, 1, 2, ...` and the midpoint
is recomputed on the fresh positions.  This predicate detects the
indistinguishable-midpoint case at slot `i`. -/
def needsRenumber (indist : ℚ → ℚ → Bool) (ps : List ℚ) (i : Nat) : Bool :=
  match (ps.take i).getLast?, (ps.drop i).head? with
  | some l, some r => indist (midpointQ l r) l || indist (midpointQ l r) r
  | _, _ => false

/-- Modelled from the spec (continued): the reorder operation itself,
composing `needsRenumber`, `renumber`, `slotPos` and `placeAt` exactly as
section 4.2 words it. -/
def reorderWithinParent (indist : ℚ → ℚ → Bool) (ps : List ℚ) (i : Nat) :
    ℚ × List ℚ :=
  if needsRenumber indist ps i then
    (slotPos (renumber ps) i, placeAt (renumber ps) i (slotPos (renumber ps) i))
  else
    (slotPos ps i, placeAt ps i (slotPos ps i))

/-- A store whose list rows for board `b1` are stored out of position
order (`positions 1, 0` in row order), and likewise its card rows under
list `l1` (positions `1, 0`). -/
def db3 : DB :=
  { users := [{ id := "u1", email := "a@b.c", password := "H", name := "A" }],
    boards := [{ id := "b1", name := "Sprint 1", ownerId := "u1", createdAt := 0 }],
    lists := [{ id := "l2", name := "Doing", boardId := "b1", position := 1 },
              { id := "l1", name := "Todo", boardId := "b1", position := 0 }],
    cards := [{ id := "c2", title := "B", description := none,
                listId := "l1", position := 1 },
              { id := "c1", title := "A", description := none,
                listId := "l1", position := 0 }] }

/-- The property C6 asserts of a `GET /api/boards` response: inside every
returned board the lists appear in ascending `position` order, and inside
every list the cards do as well. -/
def childrenOrdered (r : ApiResponse (List BoardView)) : Prop :=
  match r with
  | .err _ _ => True
  | .ok views => ∀ v ∈ views,
      (v.lists.map (fun lv => lv.list.position)).Sorted (· ≤ ·) ∧
      ∀ lv ∈ v.lists, (lv.cards.map (fun c => c.position)).Sorted (· ≤ ·)

instance childrenOrderedDecidable :
    (r : ApiResponse (List BoardView)) → Decidable (childrenOrdered r)
  | .err _ _ => .isTrue trivial
  | .ok views => inferInstanceAs (Decidable (∀ v ∈ views,
      (v.lists.map (fun lv : ListView => lv.list.position)).Sorted (· ≤ ·) ∧
      ∀ lv ∈ v.lists,
        (lv.cards.map (fun c : Card => c.position)).Sorted (· ≤ ·)))

theorem verifyBoardOwnership_eq_false_of (db : DB) (bid u : String)
    (h : ∀ b ∈ db.boards, b.id = bid → b.ownerId ≠ u) :
    verifyBoardOwnership db bid u = false := by
  unfold verifyBoardOwnership
  rw [List.any_eq_false]
  intro b hb
  simp only [Bool.and_eq_true, beq_iff_eq, not_and]
  intro h1 h2
  exact h b hb h1 h2

theorem verifyListAccess_eq_false_of (db : DB) (lid u : String)
    (h : ∀ l ∈ db.lists, l.id = lid →
      ∀ b ∈ db.boards, b.id = l.boardId → b.ownerId ≠ u) :
    verifyListAccess db lid u = false := by
  unfold verifyListAccess
  rw [List.any_eq_false]
  intro l hl
  simp only [Bool.and_eq_true, beq_iff_eq, List.any_eq_true, not_and]
  intro h1
  rintro ⟨b, hb, h2, h3⟩
  exact h l hl h1 b hb h2 h3

/-- C1: the claim says that a PUT (and DELETE) on `/cards/:id` by the
owner of the enclosing board resolves the card id to its list, then to
its board, then to the board owner, and returns 200.  On the code this
fails: the route passes the card id to `verifyListAccess`, which looks
the id up in the `lists` table, so the owner of card `c1` receives the
404 response and the store is unchanged. -/
theorem putCard_owner_gets_404 :
    putCard db1 (some "u1") "c1" (some "B") none =
      (.err 404 "Card not found or access denied", db1) ∧
    deleteCardRoute db1 (some "u1") "c1" =
      (.err 404 "Card not found or access denied", db1) ∧
    verifyListAccess db1 "l1" "u1" = true := by
  decide

/-- C2: the claim says that a PUT (and DELETE) on `/lists/:id` by the
owner of the enclosing board resolves the list id to its `boardId` and
checks that board owner, and returns 200.  On the code this fails: the
route passes the list id to `verifyBoardOwnership`, which looks the id up
in the `boards` table, so the owner of list `l1` receives the 404
response and the store is unchanged. -/
theorem putList_owner_gets_404 :
    putList db1 (some "u1") "l1" (some "Doing") =
      (.err 404 "List not found or access denied", db1) ∧
    deleteListRoute db1 (some "u1") "l1" =
      (.err 404 "List not found or access denied", db1) ∧
    verifyBoardOwnership db1 "b1" "u1" = true := by
  decide

/-- C3: for an actor `u2` who does not own the targeted board — whether
the board belongs to another user or does not exist at all — a
`POST /lists` naming that board returns the one generic 404
not-found-or-access-denied response with the store unchanged (no list
created), and a `POST /cards` naming a list that is not under a board of
`u2` behaves the same way: never a 403 and never any board data. -/
theorem foreign_board_post_generic_404 (db : DB)
    (u2 nm ttl bid lid nid1 nid2 : String)
    (hb : ∀ b ∈ db.boards, b.id = bid → b.ownerId ≠ u2)
    (hl : ∀ l ∈ db.lists, l.id = lid →
      ∀ b ∈ db.boards, b.id = l.boardId → b.ownerId ≠ u2) :
    postList db (some u2) (some nm) (some bid) nid1 =
      (.err 404 "Board not found or access denied", db) ∧
    postCard db (some u2) (some ttl) none (some lid) nid2 =
      (.err 404 "List not found or access denied", db) := by
  have h1 := verifyBoardOwnership_eq_false_of db bid u2 hb
  have h2 := verifyListAccess_eq_false_of db lid u2 hl
  constructor
  · simp [postList, h1]
  · simp [postCard, h2]

/-- Witness for C3: in `db2`, board `b1` and list `l1` belong to `u1`,
and the acting user is `u2`. -/
theorem foreign_board_post_generic_404_witness :
    ((∀ b ∈ db2.boards, b.id = "b1" → b.ownerId ≠ "u2") ∧
     (∀ l ∈ db2.lists, l.id = "l1" →
       ∀ b ∈ db2.boards, b.id = l.boardId → b.ownerId ≠ "u2")) ∧
    (postList db2 (some "u2") (some "Doing") (some "b1") "nl" =
       (.err 404 "Board not found or access denied", db2) ∧
     postCard db2 (some "u2") (some "T") none (some "l1") "nc" =
       (.err 404 "List not found or access denied", db2)) :=
  ⟨⟨by decide, by decide⟩,
   foreign_board_post_generic_404 db2 "u2" "Doing" "T" "b1" "l1" "nl" "nc"
     (by decide) (by decide)⟩

theorem max?_concat_Q (l : List ℚ) (a : ℚ) :
    (l ++ [a]).max? = some (l.max?.elim a (fun m => max m a)) := by
  induction l with
  | nil => rfl
  | cons x xs ih =>
    rw [List.cons_append, List.max?_cons, ih, List.max?_cons]
    cases hm : xs.max? <;> simp [hm, max_assoc]

theorem mem_le_max?_Q (l : List ℚ) (b : ℚ) (hb : b ∈ l) :
    ∃ m, l.max? = some m ∧ b ≤ m := by
  induction l with
  | nil => simp at hb
  | cons x xs ih =>
    rw [List.max?_cons]
    rcases List.mem_cons.mp hb with h | h
    · subst h
      refine ⟨_, rfl, ?_⟩
      cases hm : xs.max? <;> simp [hm, le_max_iff]
    · obtain ⟨m, hm, hbm⟩ := ih h
      refine ⟨_, rfl, ?_⟩
      simp [hm, le_max_iff, hbm]

theorem rangeQ_max? (k : Nat) : (rangeQ (k + 1)).max? = some (k : ℚ) := by
  induction k with
  | zero => rfl
  | succ k ih =>
    rw [show rangeQ (k + 1 + 1) = rangeQ (k + 1) ++ [((k + 1 : ℕ) : ℚ)] by
      unfold rangeQ
      rw [List.range_succ, List.map_append]
      rfl]
    rw [max?_concat_Q, ih]
    have : max (k : ℚ) ((k + 1 : ℕ) : ℚ) = ((k + 1 : ℕ) : ℚ) := by
      apply max_eq_right
      push_cast
      linarith
    simp [this]

theorem listPositions_append_row (db : DB) (bid : String) (l : BoardList)
    (h : l.boardId = bid) :
    listPositions { db with lists := db.lists ++ [l] } bid
      = listPositions db bid ++ [l.position] := by
  subst h
  unfold listPositions
  simp [List.filter_append]

theorem appendLists_positions (uid nm bid : String) (ids : List String) :
    ∀ (db : DB) (k : Nat),
      verifyBoardOwnership db bid uid = true →
      listPositions db bid = rangeQ k →
      listPositions (appendLists db uid nm bid ids) bid =
        rangeQ (k + ids.length) := by
  induction ids with
  | nil =>
    intro db k hb hp
    simpa [appendLists] using hp
  | cons i ids ih =>
    intro db k hb hp
    have hpos : getListPosition db bid + 1 = (k : ℚ) := by
      unfold getListPosition
      rw [hp]
      cases k with
      | zero => simp [rangeQ]
      | succ k' =>
        rw [rangeQ_max?]
        push_cast
        simp
    have hstep : (postList db (some uid) (some nm) (some bid) i).2 =
        { db with lists := db.lists ++
          [{ id := i, name := nm, boardId := bid,
             position := getListPosition db bid + 1 }] } := by
      simp [postList, hb]
    have hlp : listPositions (postList db (some uid) (some nm) (some bid) i).2 bid
        = rangeQ (k + 1) := by
      rw [hstep, listPositions_append_row _ _ _ rfl, hp]
      unfold rangeQ
      rw [List.range_succ, List.map_append]
      simp [hpos]
    have hb2 : verifyBoardOwnership
        (postList db (some uid) (some nm) (some bid) i).2 bid uid = true := by
      rw [hstep]
      exact hb
    have htail := ih ((postList db (some uid) (some nm) (some bid) i).2)
      (k + 1) hb2 hlp
    have hfold : appendLists db uid nm bid (i :: ids) =
        appendLists ((postList db (some uid) (some nm) (some bid) i).2)
          uid nm bid ids := rfl
    rw [hfold, htail]
    congr 1
    simp only [List.length_cons]
    omega

/-- C4: when the actor owns board `bid` and has access to list `lid`,
`POST /lists` and `POST /cards` create the child at
`position = max existing sibling position + 1` (or `0` when the parent
has no children), the new child sorts strictly after every existing
sibling, and every sequence of such appends under a fresh board produces
the strictly increasing positions `0, 1, 2, ...` in insertion order. -/
theorem append_position_spec (db : DB) (uid nm ttl bid lid nid1 nid2 : String)
    (hb : verifyBoardOwnership db bid uid = true)
    (hl : verifyListAccess db lid uid = true) :
    (∃ l dbl, postList db (some uid) (some nm) (some bid) nid1 = (.ok l, dbl) ∧
      ((listPositions db bid = [] → l.position = 0) ∧
       (∀ m, (listPositions db bid).max? = some m → l.position = m + 1) ∧
       (∀ p ∈ listPositions db bid, p < l.position))) ∧
    (∃ c dbc, postCard db (some uid) (some ttl) none (some lid) nid2 =
        (.ok c, dbc) ∧
      ((cardPositions db lid = [] → c.position = 0) ∧
       (∀ m, (cardPositions db lid).max? = some m → c.position = m + 1) ∧
       (∀ p ∈ cardPositions db lid, p < c.position))) ∧
    (listPositions db bid = [] → ∀ ids : List String,
       listPositions (appendLists db uid nm bid ids) bid =
         rangeQ ids.length) := by
  refine ⟨⟨{ id := nid1, name := nm, boardId := bid,
             position := getListPosition db bid + 1 },
           { db with lists := db.lists ++
             [{ id := nid1, name := nm, boardId := bid,
                position := getListPosition db bid + 1 }] },
           by simp [postList, hb], ?_, ?_, ?_⟩,
          ⟨{ id := nid2, title := ttl, description := none, listId := lid,
             position := getCardPosition db lid + 1 },
           { db with cards := db.cards ++
             [{ id := nid2, title := ttl, description := none, listId := lid,
                position := getCardPosition db lid + 1 }] },
           by simp [postCard, hl], ?_, ?_, ?_⟩, ?_⟩
  · intro h
    simp [getListPosition, h]
  · intro m hm
    simp [getListPosition, hm]
  · intro p hp
    obtain ⟨m, hm, hpm⟩ := mem_le_max?_Q _ p hp
    simp only [getListPosition, hm, Option.getD_some]
    linarith
  · intro h
    simp [getCardPosition, h]
  · intro m hm
    simp [getCardPosition, hm]
  · intro p hp
    obtain ⟨m, hm, hpm⟩ := mem_le_max?_Q _ p hp
    simp only [getCardPosition, hm, Option.getD_some]
    linarith
  · intro h ids
    have := appendLists_positions uid nm bid ids db 0 hb
      (by simpa [rangeQ] using h)
    simpa using this

/-- Witness for C4: in `db1` the actor `u1` owns board `b1` and list
`l1`; the freshly appended list sorts after every existing sibling. -/
theorem append_position_spec_witness :
    (verifyBoardOwnership db1 "b1" "u1" = true) ∧
    (verifyListAccess db1 "l1" "u1" = true) ∧
    ∃ l dbl, postList db1 (some "u1") (some "N") (some "b1") "n1" =
      (.ok l, dbl) ∧ ∀ p ∈ listPositions db1 "b1", p < l.position :=
  ⟨by decide, by decide, by
    obtain ⟨⟨l, dbl, heq, _, _, hlt⟩, _, _⟩ :=
      append_position_spec db1 "u1" "N" "T" "b1" "l1" "n1" "n2"
        (by decide) (by decide)
    exact ⟨l, dbl, heq, hlt⟩⟩

/-- C6 counterexample: in `db3` the lists of board `b1` are stored with
positions `1, 0` in row order and the cards of list `l1` likewise;
`GET /api/boards` issues no ORDER BY on the children, so the response of
the board owner does not carry its lists (nor the cards) in ascending
position order, refuting the claim at this input. -/
theorem getBoards_not_position_ordered :
    ¬ childrenOrdered (getBoards db3 (some "u1")) := by
  decide

theorem byCreatedDesc_trans : ∀ a b c : Board,
    byCreatedDesc a b = true → byCreatedDesc b c = true →
    byCreatedDesc a c = true := by
  intro a b c h1 h2
  simp only [byCreatedDesc, decide_eq_true_eq] at h1 h2 ⊢
  omega

theorem byCreatedDesc_total : ∀ a b : Board,
    (byCreatedDesc a b || byCreatedDesc b a) = true := by
  intro a b
  simp only [byCreatedDesc, Bool.or_eq_true, decide_eq_true_eq]
  omega

theorem mem_insertDesc {b y : Board} {l : List Board} :
    y ∈ insertDesc b l ↔ y = b ∨ y ∈ l := by
  induction l with
  | nil => simp [insertDesc]
  | cons x xs ih =>
    simp only [insertDesc]
    by_cases h : byCreatedDesc b x
    · simp [h]
    · simp [h, List.mem_cons, ih]
      tauto

theorem insertDesc_pairwise {b : Board} {l : List Board}
    (hl : l.Pairwise (fun a c => byCreatedDesc a c = true)) :
    (insertDesc b l).Pairwise (fun a c => byCreatedDesc a c = true) := by
  induction l with
  | nil => simp [insertDesc]
  | cons x xs ih =>
    rcases List.pairwise_cons.mp hl with ⟨hx, hxs⟩
    simp only [insertDesc]
    by_cases h : byCreatedDesc b x = true
    · rw [if_pos h]
      refine List.pairwise_cons.mpr ⟨?_, hl⟩
      intro y hy
      rcases List.mem_cons.mp hy with rfl | hy2
      · exact h
      · exact byCreatedDesc_trans b x y h (hx y hy2)
    · rw [if_neg h]
      refine List.pairwise_cons.mpr ⟨?_, ih hxs⟩
      intro y hy
      rcases mem_insertDesc.mp hy with rfl | hy2
      · have h1 := byCreatedDesc_total y x
        cases hbx : byCreatedDesc x y with
        | true => rfl
        | false =>
          rw [hbx, Bool.or_false] at h1
          exact absurd h1 h
      · exact hx y hy2

theorem sortByCreatedDesc_pairwise (l : List Board) :
    (sortByCreatedDesc l).Pairwise (fun a c => byCreatedDesc a c = true) := by
  induction l with
  | nil => exact List.Pairwise.nil
  | cons x xs ih => exact insertDesc_pairwise ih

/-- C6 amended: `GET /api/boards` returns the boards of the actor in
descending `created_at` order, but each board carries its lists — and
each list its cards — exactly in store order: no position ordering is
applied to the children. -/
theorem getBoards_store_order (db : DB) (uid : String) :
    ∃ views, getBoards db (some uid) = .ok views ∧
      (views.map (fun v => v.board.createdAt)).Pairwise (· ≥ ·) ∧
      ∀ v ∈ views, v.lists =
        (db.lists.filter (fun l => l.boardId == v.board.id)).map (fun l =>
          { list := l, cards := db.cards.filter (fun c => c.listId == l.id) }) := by
  refine ⟨_, rfl, ?_, ?_⟩
  · have hs := sortByCreatedDesc_pairwise
      (db.boards.filter (fun b => b.ownerId == uid))
    rw [List.map_map]
    have hcomp : ((fun v : BoardView => v.board.createdAt) ∘ boardView db) =
        fun b : Board => b.createdAt := rfl
    rw [hcomp, List.pairwise_map]
    refine hs.imp ?_
    intro a b hab
    simpa [byCreatedDesc, decide_eq_true_eq] using hab
  · intro v hv
    rw [List.mem_map] at hv
    obtain ⟨b, _, rfl⟩ := hv
    rfl

/-- C7: after `deleteList`, the list row is gone, every card whose
`list_id` named the list is gone (the delete cascades to the cards of the
list), a store lookup of the list id finds nothing, and the access
resolution for the deleted id answers false for every actor, so
subsequent reads produce the not-found outcome. -/
theorem deleteList_cascade (db : DB) (L : String) :
    (∀ l ∈ (deleteList db L).lists, l.id ≠ L) ∧
    (∀ c ∈ (deleteList db L).cards, c.listId ≠ L) ∧
    ((deleteList db L).lists.find? (fun l => l.id == L) = none) ∧
    (∀ u, verifyListAccess (deleteList db L) L u = false) := by
  have hlists : ∀ l ∈ (deleteList db L).lists, l.id ≠ L := by
    intro l hl
    simp only [deleteList] at hl
    have h2 := (List.mem_filter.mp hl).2
    simpa using h2
  refine ⟨hlists, ?_, ?_, ?_⟩
  · intro c hc
    simp only [deleteList] at hc
    have h2 := (List.mem_filter.mp hc).2
    simpa using h2
  · rw [List.find?_eq_none]
    intro l hl
    simpa using hlists l hl
  · intro u
    unfold verifyListAccess
    rw [List.any_eq_false]
    intro l hl
    simp only [Bool.and_eq_true, beq_iff_eq, not_and]
    intro h1
    exact absurd h1 (hlists l hl)

/-- C8: registering an email that an existing user row already holds
answers 409 and leaves the user store untouched; registering a fresh
email stores `hash(password)` — the digest, never the raw password — in
the new row and returns the projection carrying only id, email and name
(the `UserProjection` type has no digest field). -/
theorem register_duplicate_and_digest (db : DB) (hash : String → String)
    (newId e p n : String) :
    ((∃ u ∈ db.users, u.email = e) →
      registerUser db hash newId (some e) (some p) (some n) =
        (.err 409 "Email already in use", db)) ∧
    ((∀ u ∈ db.users, u.email ≠ e) →
      registerUser db hash newId (some e) (some p) (some n) =
        (.ok { id := newId, email := e, name := n },
         { db with users := db.users ++
           [{ id := newId, email := e, password := hash p, name := n }] })) := by
  constructor
  · rintro ⟨u, hu, he⟩
    have hsome : (db.users.find? (fun v => v.email == e)).isSome := by
      rw [List.find?_isSome]
      exact ⟨u, hu, by simp [he]⟩
    obtain ⟨v, hv⟩ := Option.isSome_iff_exists.mp hsome
    have hv2 : getUserByEmail db e = some v := hv
    simp [registerUser, hv2]
  · intro h
    have hnone : getUserByEmail db e = none := by
      unfold getUserByEmail
      rw [List.find?_eq_none]
      intro u hu
      simpa using h u hu
    simp [registerUser, hnone]

/-- Witness for C8: in `db1` the email `a@b.c` is already stored, while
`x@y.z` is fresh. -/
theorem register_duplicate_and_digest_witness :
    ((∃ u ∈ db1.users, u.email = "a@b.c") ∧
     registerUser db1 (fun s => "H" ++ s) "u9" (some "a@b.c") (some "pw")
       (some "N") = (.err 409 "Email already in use", db1)) ∧
    ((∀ u ∈ db1.users, u.email ≠ "x@y.z") ∧
     registerUser db1 (fun s => "H" ++ s) "u9" (some "x@y.z") (some "pw")
       (some "N") =
       (.ok { id := "u9", email := "x@y.z", name := "N" },
        { db1 with users := db1.users ++
          [{ id := "u9", email := "x@y.z", password := "H" ++ "pw",
             name := "N" }] })) :=
  ⟨⟨by decide,
    (register_duplicate_and_digest db1 (fun s => "H" ++ s) "u9" "a@b.c"
      "pw" "N").1 (by decide)⟩,
   ⟨by decide,
    (register_duplicate_and_digest db1 (fun s => "H" ++ s) "u9" "x@y.z"
      "pw" "N").2 (by decide)⟩⟩

/-- C9: a login naming an email that matches no stored user and a login
naming a stored email with a password the digest comparison rejects
produce the same response: 401 with the one undifferentiated
`Invalid credentials` body, so the pair of responses reveals nothing
about whether the email exists. -/
theorem login_indistinguishable (db : DB) (compare : String → String → Bool)
    (sign : String → String) (e1 p1 e2 p2 : String) (u : User)
    (h1 : getUserByEmail db e1 = none)
    (h2 : getUserByEmail db e2 = some u)
    (h3 : compare p2 u.password = false) :
    login db compare sign (some e1) (some p1) =
      .err 401 "Invalid credentials" ∧
    login db compare sign (some e2) (some p2) =
      .err 401 "Invalid credentials" ∧
    login db compare sign (some e1) (some p1) =
      login db compare sign (some e2) (some p2) := by
  have ha : login db compare sign (some e1) (some p1) =
      .err 401 "Invalid credentials" := by
    simp [login, h1]
  have hb : login db compare sign (some e2) (some p2) =
      .err 401 "Invalid credentials" := by
    simp [login, h2, h3]
  exact ⟨ha, hb, ha.trans hb.symm⟩

/-- Witness for C9: in `db1`, no user has email `zz@zz`, while `a@b.c`
belongs to the stored user whose digest the comparison rejects. -/
theorem login_indistinguishable_witness :
    (getUserByEmail db1 "zz@zz" = none ∧
     getUserByEmail db1 "a@b.c" =
       some { id := "u1", email := "a@b.c", password := "H", name := "A" } ∧
     (fun p d : String => p == d) "bad" "H" = false) ∧
    (login db1 (fun p d => p == d) (fun i => i) (some "zz@zz") (some "q") =
       .err 401 "Invalid credentials" ∧
     login db1 (fun p d => p == d) (fun i => i) (some "a@b.c") (some "bad") =
       .err 401 "Invalid credentials" ∧
     login db1 (fun p d => p == d) (fun i => i) (some "zz@zz") (some "q") =
       login db1 (fun p d => p == d) (fun i => i) (some "a@b.c")
         (some "bad")) :=
  ⟨⟨by decide, by decide, by decide⟩,
   login_indistinguishable db1 (fun p d => p == d) (fun i => i) "zz@zz" "q"
     "a@b.c" "bad"
     { id := "u1", email := "a@b.c", password := "H", name := "A" }
     (by decide) (by decide) (by decide)⟩

theorem isPrefixOf_append_self (pat t : List Char) :
    pat.isPrefixOf (pat ++ t) = true := by
  induction pat with
  | nil => simp [List.isPrefixOf]
  | cons c cs ih => simp [List.isPrefixOf, ih]

theorem replaceOnce_prepend (rep t : List Char) (c : Char) (cs : List Char) :
    replaceOnce (c :: cs) rep ((c :: cs) ++ t) = rep ++ t := by
  show replaceOnce (c :: cs) rep (c :: (cs ++ t)) = rep ++ t
  unfold replaceOnce
  rw [if_pos]
  · simp
  · show (c :: cs).isPrefixOf (c :: (cs ++ t)) = true
    exact isPrefixOf_append_self (c :: cs) t

theorem replaceOnce_of_not_contains (pat rep s : List Char)
    (h : containsSeq pat s = false) : replaceOnce pat rep s = s := by
  induction s with
  | nil => rfl
  | cons c cs ih =>
    unfold containsSeq at h
    rw [Bool.or_eq_false_iff] at h
    unfold replaceOnce
    rw [if_neg (by simp [h.1]), ih h.2]

/-- C10: a valid signed token placed bare in the `Authorization` header —
no `Bearer ` scheme prefix, and the scheme string occurring nowhere in
the token, as for a JWT, which contains no space — still authenticates:
the extraction returns the token user id, a prefixed header strips down
to the same token, and the boards route answers 200 to the extracted
actor rather than 401. -/
theorem bearer_scheme_not_required (verify : String → Option String)
    (db : DB) (tok uid : String)
    (hv : verify tok = some uid)
    (hnb : containsSeq "Bearer ".data tok.data = false) :
    getUserIdFromToken verify (some ("Bearer " ++ tok)) = verify tok ∧
    getUserIdFromToken verify (some tok) = some uid ∧
    ∃ views, getBoards db (getUserIdFromToken verify (some tok)) =
      .ok views := by
  have hstrip : replaceOnce "Bearer ".data [] tok.data = tok.data :=
    replaceOnce_of_not_contains _ _ _ hnb
  have hbare : getUserIdFromToken verify (some tok) = some uid := by
    show verify (String.mk (replaceOnce "Bearer ".data [] tok.data)) = some uid
    rw [hstrip]
    exact hv
  refine ⟨?_, hbare, ?_⟩
  · show verify (String.mk
      (replaceOnce "Bearer ".data [] ("Bearer " ++ tok).data)) = verify tok
    rw [String.data_append]
    rw [show "Bearer ".data = 'B' :: "earer ".data from rfl]
    rw [replaceOnce_prepend]
    rfl
  · rw [hbare]
    exact ⟨_, rfl⟩

/-- Witness for C10: a concrete verifier accepting the bare token
`aaa.bbb.ccc`, which does not contain the scheme string. -/
theorem bearer_scheme_not_required_witness :
    ((fun t : String => if t == "aaa.bbb.ccc" then some "u1" else none)
        "aaa.bbb.ccc" = some "u1" ∧
     containsSeq "Bearer ".data "aaa.bbb.ccc".data = false) ∧
    (getUserIdFromToken
        (fun t : String => if t == "aaa.bbb.ccc" then some "u1" else none)
        (some ("Bearer " ++ "aaa.bbb.ccc")) =
      (fun t : String => if t == "aaa.bbb.ccc" then some "u1" else none)
        "aaa.bbb.ccc" ∧
     getUserIdFromToken
        (fun t : String => if t == "aaa.bbb.ccc" then some "u1" else none)
        (some "aaa.bbb.ccc") = some "u1" ∧
     ∃ views, getBoards db1
        (getUserIdFromToken
          (fun t : String => if t == "aaa.bbb.ccc" then some "u1" else none)
          (some "aaa.bbb.ccc")) = .ok views) :=
  ⟨⟨by decide, by decide⟩,
   bearer_scheme_not_required
     (fun t : String => if t == "aaa.bbb.ccc" then some "u1" else none)
     db1 "aaa.bbb.ccc" "u1" (by decide) (by decide)⟩

theorem sorted_le_of_getLast? {l : List ℚ} (hs : l.Sorted (· < ·))
    {a m : ℚ} (hm : l.getLast? = some m) (ha : a ∈ l) : a ≤ m := by
  induction l with
  | nil => simp at ha
  | cons x xs ih =>
    rcases List.pairwise_cons.mp hs with ⟨hx, hxs⟩
    cases xs with
    | nil =>
      simp at hm ha
      rw [hm] at ha
      exact le_of_eq ha
    | cons y ys =>
      rw [List.getLast?_cons_cons] at hm
      rcases List.mem_cons.mp ha with rfl | ha2
      · have hmem : m ∈ y :: ys := List.mem_of_mem_getLast? hm
        exact le_of_lt (hx m hmem)
      · exact ih hxs hm ha2

theorem sorted_ge_of_head? {l : List ℚ} (hs : l.Sorted (· < ·))
    {a m : ℚ} (hm : l.head? = some m) (ha : a ∈ l) : m ≤ a := by
  cases l with
  | nil => simp at ha
  | cons x xs =>
    rcases List.pairwise_cons.mp hs with ⟨hx, _⟩
    simp only [List.head?_cons, Option.some_inj] at hm
    subst hm
    rcases List.mem_cons.mp ha with rfl | ha2
    · exact le_refl a
    · exact le_of_lt (hx a ha2)

theorem slotPos_bounds {ps : List ℚ} (hs : ps.Sorted (· < ·)) (i : Nat) :
    (∀ a ∈ ps.take i, a < slotPos ps i) ∧
    (∀ b ∈ ps.drop i, slotPos ps i < b) := by
  have hT : (ps.take i).Sorted (· < ·) :=
    List.Pairwise.sublist (List.take_sublist i ps) hs
  have hD : (ps.drop i).Sorted (· < ·) :=
    List.Pairwise.sublist (List.drop_sublist i ps) hs
  have hps : ps.take i ++ ps.drop i = ps := List.take_append_drop i ps
  have hs2 : (ps.take i ++ ps.drop i).Sorted (· < ·) := by
    rw [hps]
    exact hs
  obtain ⟨_, _, h12⟩ := List.pairwise_append.mp hs2
  unfold slotPos
  cases hL : (ps.take i).getLast? with
  | none =>
    have hTnil : ps.take i = [] := List.getLast?_eq_none_iff.mp hL
    cases hR : (ps.drop i).head? with
    | none =>
      have hDnil : ps.drop i = [] := List.head?_eq_none_iff.mp hR
      constructor
      · intro a ha
        rw [hTnil] at ha
        simp at ha
      · intro b hb
        rw [hDnil] at hb
        simp at hb
    | some r =>
      constructor
      · intro a ha
        rw [hTnil] at ha
        simp at ha
      · intro b hb
        have := sorted_ge_of_head? hD hR hb
        show r - 1 < b
        linarith
  | some l =>
    cases hR : (ps.drop i).head? with
    | none =>
      have hDnil : ps.drop i = [] := List.head?_eq_none_iff.mp hR
      constructor
      · intro a ha
        have := sorted_le_of_getLast? hT hL ha
        show a < l + 1
        linarith
      · intro b hb
        rw [hDnil] at hb
        simp at hb
    | some r =>
      have hlr : l < r :=
        h12 l (List.mem_of_mem_getLast? hL) r (List.mem_of_mem_head? hR)
      constructor
      · intro a ha
        have := sorted_le_of_getLast? hT hL ha
        show a < (l + r) / 2
        linarith
      · intro b hb
        have := sorted_ge_of_head? hD hR hb
        show (l + r) / 2 < b
        linarith

theorem placeAt_sorted {ps : List ℚ} (i : Nat) (p : ℚ)
    (hs : ps.Sorted (· < ·))
    (hlo : ∀ a ∈ ps.take i, a < p) (hhi : ∀ b ∈ ps.drop i, p < b) :
    (placeAt ps i p).Sorted (· < ·) := by
  have hps : ps.take i ++ ps.drop i = ps := List.take_append_drop i ps
  have hs2 : (ps.take i ++ ps.drop i).Sorted (· < ·) := by
    rw [hps]
    exact hs
  obtain ⟨h1, h2, h12⟩ := List.pairwise_append.mp hs2
  unfold placeAt
  apply List.pairwise_append.mpr
  refine ⟨h1, List.pairwise_cons.mpr ⟨hhi, h2⟩, ?_⟩
  intro a ha b hb
  rcases List.mem_cons.mp hb with rfl | hb2
  · exact hlo a ha
  · exact h12 a ha b hb2

theorem placeAt_getElem? {ps : List ℚ} {i : Nat} (hi : i ≤ ps.length)
    (p : ℚ) : (placeAt ps i p)[i]? = some p := by
  unfold placeAt
  have hlen : (ps.take i).length = i := by
    rw [List.length_take]
    omega
  rw [List.getElem?_append_right (le_of_eq hlen)]
  rw [hlen]
  simp

theorem place_slot_spec {ps : List ℚ} (i : Nat) (hs : ps.Sorted (· < ·))
    (hi : i ≤ ps.length) :
    (placeAt ps i (slotPos ps i)).Sorted (· < ·) ∧
    (placeAt ps i (slotPos ps i)).Pairwise (· ≠ ·) ∧
    (placeAt ps i (slotPos ps i))[i]? = some (slotPos ps i) := by
  obtain ⟨hlo, hhi⟩ := slotPos_bounds hs i
  have hsorted := placeAt_sorted i (slotPos ps i) hs hlo hhi
  exact ⟨hsorted, hsorted.imp (fun h => ne_of_lt h),
    placeAt_getElem? hi (slotPos ps i)⟩

theorem renumber_sorted (ps : List ℚ) : (renumber ps).Sorted (· < ·) := by
  unfold renumber rangeQ
  show List.Pairwise (· < ·)
    ((List.range ps.length).map (fun i : Nat => (i : ℚ)))
  rw [List.pairwise_map]
  refine (List.pairwise_lt_range _).imp ?_
  intro a b h
  exact_mod_cast h

theorem renumber_length (ps : List ℚ) : (renumber ps).length = ps.length := by
  simp [renumber, rangeQ]

/-- C5: the modelled reorder-within-parent operation — midpoint of the
two flanking neighbors, `neighbor ± 1` at either end, full renumbering
`0, 1, 2, ...` first whenever the midpoint is indistinguishable from a
neighbor — always yields a sibling set that is strictly sorted, hence
with no two siblings sharing a position, and the moved child sits exactly
at the requested target index with the persisted position. -/
theorem reorder_within_parent_spec (indist : ℚ → ℚ → Bool) (ps : List ℚ)
    (i : Nat) (hs : ps.Sorted (· < ·)) (hi : i ≤ ps.length) :
    ((reorderWithinParent indist ps i).2).Sorted (· < ·) ∧
    ((reorderWithinParent indist ps i).2).Pairwise (· ≠ ·) ∧
    ((reorderWithinParent indist ps i).2)[i]? =
      some (reorderWithinParent indist ps i).1 := by
  unfold reorderWithinParent
  by_cases h : needsRenumber indist ps i = true
  · rw [if_pos h]
    exact place_slot_spec i (renumber_sorted ps)
      (by rw [renumber_length]; exact hi)
  · rw [if_neg h]
    exact place_slot_spec i hs hi

/-- Witness for C5: inserting between the siblings at positions 0 and 1
of the strictly sorted set `[0, 1, 2]`. -/
theorem reorder_within_parent_spec_witness :
    (([0, 1, 2] : List ℚ).Sorted (· < ·) ∧ 1 ≤ ([0, 1, 2] : List ℚ).length) ∧
    (((reorderWithinParent (fun a b => a == b) [0, 1, 2] 1).2).Sorted (· < ·) ∧
     ((reorderWithinParent (fun a b => a == b) [0, 1, 2] 1).2).Pairwise (· ≠ ·) ∧
     ((reorderWithinParent (fun a b => a == b) [0, 1, 2] 1).2)[1]? =
       some (reorderWithinParent (fun a b => a == b) [0, 1, 2] 1).1) :=
  ⟨⟨by decide, by decide⟩,
   reorder_within_parent_spec (fun a b => a == b) [0, 1, 2] 1
     (by decide) (by decide)⟩

end Trello
